import Mathlib

/-!
Verification of the AI-assisted employee-intake workflow of the `mkx-ai`
HR-records service: the markdown/JSON response extractor
(`extractJsonFromMarkdown`), the per-record provisioner
(`createEmployeeRecordInHRMS`), the batch orchestrator (`createEmployee`)
and its response summary, and the module-initialisation behaviour of the
two controller variants with respect to the AI API credential.

External collaborators (the relational store, the bcrypt hasher, the mail
transport, `Math.random`, and the JSON parser) are modelled as explicit
parameters: the store is a pure `State` value threaded through the
operations, the hasher an arbitrary `String → String` function, mail and
transaction failures Boolean outcome flags, and random draws a `Nat → Nat`
stream, so every run of the code corresponds to one choice of these
parameters.
-/

namespace MkxAI

/-! ## Response extractor

`extractJsonFromMarkdown` in the source is
`text.match(/\x60\x60\x60(?:json)?\s*([\s\S]*?)\s*\x60\x60\x60/)`, taking
group 1 trimmed when the regex matches and `text.trim()` otherwise.  We
model the JavaScript regex engine's behaviour on exactly this pattern over
`List Char`: scan for the first position where the whole pattern matches;
at a candidate position, consume the opening fence, greedily the optional
`json` tag (with the engine's fallback to the untagged alternative),
greedily the leading `\s*`, then grow the lazy capture group one character
at a time, at each step first trying to finish with `\s*` followed by a
closing fence.  Only the ASCII whitespace characters of JavaScript's `\s`
are modelled (the Unicode additions are irrelevant to JSON payloads). -/

/-- The ASCII part of JavaScript's `\s` class (also the set trimmed by
`String.prototype.trim`): space, tab, LF, CR, FF, VT. -/
def isJsWs (c : Char) : Bool :=
  c = ' ' || c = '\t' || c = '\n' || c = '\r' || c = '\x0c' || c = '\x0b'

/-- Does the list start with a triple-backtick fence? -/
def startsFence (l : List Char) : Bool :=
  l.take 3 = ['`', '`', '`']

/-- Does the list start with the literal tag `json`? -/
def startsJson (l : List Char) : Bool :=
  l.take 4 = ['j', 's', 'o', 'n']

/-- Can the tail pattern `\s*` followed by a closing fence match starting
here?  (All backtracking amounts of the greedy `\s*` are folded into one
scan, since only success matters for what the capture group returns.) -/
def closesHere : List Char → Bool
  | [] => false
  | c :: r => startsFence (c :: r) || (isJsWs c && closesHere r)

/-- The lazy capture group `([\s\S]*?)`: before consuming each character,
first try to complete the match with `\s*` and a closing fence. -/
def lazyLoop (acc : List Char) : List Char → Option (List Char)
  | [] => if closesHere [] then some acc.reverse else none
  | c :: r =>
    if closesHere (c :: r) then some acc.reverse
    else lazyLoop (c :: acc) r

/-- Match `\s*([\s\S]*?)\s*` ++ fence against `l`, returning the capture
group.  The leading greedy `\s*` needs no backtracking: the characters it
consumes are whitespace, hence never part of a closing fence, and the lazy
group can absorb them without changing whether the pattern matches. -/
def matchInner (l : List Char) : Option (List Char) :=
  lazyLoop [] (l.dropWhile isJsWs)

/-- Try to match the whole pattern at this position: the opening fence,
then the optional greedy group `(?:json)?` — the engine first tries with
the tag consumed and falls back to the untagged alternative if the rest
of the pattern fails — then the inner pattern. -/
def matchAt (l : List Char) : Option (List Char) :=
  if startsFence l then
    let r := l.drop 3
    if startsJson r then
      match matchInner (r.drop 4) with
      | some g => some g
      | none => matchInner r
    else matchInner r
  else none

/-- `String.prototype.match` (non-global): try the pattern at each
position from the left, returning the first successful capture group. -/
def regexSearch : List Char → Option (List Char)
  | [] => none
  | c :: r =>
    match matchAt (c :: r) with
    | some g => some g
    | none => regexSearch r

/-- `String.prototype.trim` on the left, over the JS whitespace set. -/
def jsTrimLeft (l : List Char) : List Char := l.dropWhile isJsWs

/-- `String.prototype.trim` on the right. -/
def jsTrimRight (l : List Char) : List Char :=
  (l.reverse.dropWhile isJsWs).reverse

/-- `String.prototype.trim`. -/
def jsTrim (l : List Char) : List Char := jsTrimRight (jsTrimLeft l)

/-- `extractJsonFromMarkdown` from the source: group 1 of the first regex
match, trimmed, when the pattern matches; otherwise the whole text
trimmed. -/
def extractJsonFromMarkdown (text : String) : String :=
  match regexSearch text.data with
  | some g => String.mk (jsTrim g)
  | none => String.mk (jsTrim text.data)

/-! Spec-side description of the extractor (used by the refinement claim
about fenced code blocks; deliberately phrased after the specification's
words, to be compared with the source-derived function above). -/

/-- Does a triple-backtick fence occur anywhere in the list? -/
def hasFence : List Char → Bool
  | [] => false
  | c :: r => startsFence (c :: r) || hasFence r

/-- The characters strictly before the first fence occurrence (`none`
when no fence occurs): the interior of a block once the opening fence and
tag have been consumed. -/
def interiorToFence : List Char → Option (List Char)
  | [] => none
  | c :: r =>
    if startsFence (c :: r) then some []
    else (interiorToFence r).map (c :: ·)

/-- Spec side: the interior of the first fenced code block, where a block
is an opening triple-backtick fence, an optional literal `json` tag,
interior text up to the next closing triple-backtick fence.  An opening
fence with no closing fence after it is not a block. -/
def firstBlockInterior : List Char → Option (List Char)
  | [] => none
  | c :: r =>
    if startsFence (c :: r) then
      let body :=
        if startsJson ((c :: r).drop 3) then ((c :: r).drop 3).drop 4
        else (c :: r).drop 3
      match interiorToFence body with
      | some int => some int
      | none => firstBlockInterior r
    else firstBlockInterior r

/-- Spec side: the text contains a fenced code block. -/
def containsFencedBlock (text : String) : Bool :=
  (firstBlockInterior text.data).isSome

/-- Proof-side normal form of the lazy group: the characters consumed
before the first position where the closing pattern can match. -/
def untilClose : List Char → List Char
  | [] => []
  | c :: r => if closesHere (c :: r) then [] else c :: untilClose r

/-- Proof-side normal form of the block interior: the characters before
the first fence occurrence. -/
def untilFence : List Char → List Char
  | [] => []
  | c :: r => if startsFence (c :: r) then [] else c :: untilFence r

/-- Spec side (`Modelled from the spec` §4.2): return the trimmed interior
of the first fenced block when one exists, the trimmed whole text
otherwise. -/
def specExtract (text : String) : String :=
  match firstBlockInterior text.data with
  | some int => String.mk (jsTrim int)
  | none => String.mk (jsTrim text.data)

/-! ## Data model

The persisted entities follow the Prisma models used by the controller:
`employee` (unique on email, `status` defaulting to `"active"`) and `user`
(unique on email, hashed credential, role, back-reference `employee_id`).
The store is a pure `State`; `findUnique` by email is `List.find?`,
`create` appends with the next fresh id. -/

/-- The `EmployeeData` interface: one element of the extraction array. -/
structure EmployeeData where
  first_name : String
  last_name : String
  email : String
  job_title : String
  department : String
  start_date : String
deriving Repr, DecidableEq

/-- A persisted `employee` row. -/
structure Employee where
  id : Nat
  first_name : String
  last_name : String
  email : String
  job_title : String
  department : String
  joining_date : String
  status : String
  created_by : Nat
deriving Repr, DecidableEq

/-- A persisted `user` row (the account record). -/
structure UserAccount where
  id : Nat
  name : String
  email : String
  password : String
  role : String
  employee_id : Nat
deriving Repr, DecidableEq

/-- The relational store visible to the intake workflow. -/
structure State where
  employees : List Employee
  users : List UserAccount
  nextEmployeeId : Nat
  nextUserId : Nat
deriving Repr, DecidableEq

/-- `prisma.employee.findUnique({ where: { email } })`. -/
def State.findEmployeeByEmail (s : State) (email : String) : Option Employee :=
  s.employees.find? (fun e => e.email == email)

/-- `prisma.user.findUnique({ where: { email } })`. -/
def State.findUserByEmail (s : State) (email : String) : Option UserAccount :=
  s.users.find? (fun u => u.email == email)

/-- The per-record status tag of an `IntakeOutcome` (`partialSuccess`
renders the source's `"partial_success"`). -/
inductive IntakeStatus where
  | success
  | partialSuccess
  | skipped
  | error
deriving Repr, DecidableEq

/-- The object returned by `createEmployeeRecordInHRMS`.  JavaScript
returns branch-specific field sets; absent fields are `none` (so the
orchestrator's `email_sent === true` test is `email_sent = some true`). -/
structure IntakeOutcome where
  status : IntakeStatus
  message : String
  employee_id : Option Nat
  user_id : Option Nat
  email_sent : Option Bool
deriving Repr, DecidableEq

/-! ## Per-record provisioner -/

/-- The password alphabet of `generateRandomPassword`. -/
def charset : String :=
  "ABCDEFGHIJKLMNOPQRSTUVWXYZabcdefghijklmnopqrstuvwxyz0123456789@#$%&*"

/-- `generateRandomPassword(length = 12)`: one character per loop
iteration, each `charset.charAt(Math.floor(Math.random() * charset.length))`.
The random draws are modelled as a stream `rand : Nat → Nat`; reducing the
draw modulo `charset.length` ranges over exactly the indices
`Math.floor(Math.random() * charset.length)` can produce. -/
def generateRandomPassword (length : Nat) (rand : Nat → Nat) : String :=
  String.mk ((List.range length).map
    (fun i => charset.data.getD (rand i % charset.length) 'A'))

/-- `userId || 1`: JavaScript `||` takes the fallback on `undefined` and
on the falsy actor id `0`. -/
def jsOrOne (userId : Option Nat) : Nat :=
  match userId with
  | none => 1
  | some u => if u == 0 then 1 else u

/-- Failure/randomness environment for one `createEmployeeRecordInHRMS`
call: whether `tx.employee.create` throws, whether `tx.user.create`
throws, whether `transporter.sendMail` throws, and the `Math.random`
draws for the password. -/
structure ProvisionEnv where
  txFailEmployee : Bool
  txFailUser : Bool
  emailFails : Bool
  rand : Nat → Nat

/-- The employee row built by `tx.employee.create` (the `data` object of
the source, with the store-assigned fresh id and defaulted `status`). -/
def employeeRow (s : State) (d : EmployeeData) (userId : Option Nat) :
    Employee :=
  { id := s.nextEmployeeId
    first_name := d.first_name
    last_name := d.last_name
    email := d.email
    job_title := d.job_title
    department := d.department
    joining_date := d.start_date
    status := "active"
    created_by := jsOrOne userId }

/-- The user row built by `tx.user.create` (fresh id from the store,
back-reference to the employee row just created). -/
def accountRow (s : State) (d : EmployeeData) (hashedPassword : String) :
    UserAccount :=
  { id := s.nextUserId
    name := d.first_name ++ " " ++ d.last_name
    email := d.email
    password := hashedPassword
    role := "EMPLOYEE"
    employee_id := s.nextEmployeeId }

/-- The body of `prisma.$transaction`: create the employee row, then the
linked user row.  Each create may throw (modelled by the environment
flags, covering e.g. a unique-constraint race); the intermediate state
after the first create is visible only inside the transaction. -/
def txBody (s : State) (d : EmployeeData) (userId : Option Nat)
    (hashedPassword : String) (env : ProvisionEnv) :
    Except String (State × Employee × UserAccount) :=
  if env.txFailEmployee then .error "employee create failed"
  else
    let emp : Employee := employeeRow s d userId
    let s1 : State :=
      { s with employees := s.employees ++ [emp],
               nextEmployeeId := s.nextEmployeeId + 1 }
    if env.txFailUser then .error "user create failed"
    else
      let usr : UserAccount := accountRow s d hashedPassword
      let s2 : State :=
        { s1 with users := s1.users ++ [usr], nextUserId := s1.nextUserId + 1 }
      .ok (s2, emp, usr)

/-- The store state after a committed transaction: both rows appended,
both id counters advanced. -/
def committedState (s : State) (d : EmployeeData) (userId : Option Nat)
    (hashedPassword : String) : State :=
  { employees := s.employees ++ [employeeRow s d userId]
    users := s.users ++ [accountRow s d hashedPassword]
    nextEmployeeId := s.nextEmployeeId + 1
    nextUserId := s.nextUserId + 1 }

/-- `prisma.$transaction(fn)`: commit the body's final state on success;
on any throw inside the body, roll back to the initial state. -/
def runTransaction (s : State) (d : EmployeeData) (userId : Option Nat)
    (hashedPassword : String) (env : ProvisionEnv) :
    Except String (State × Employee × UserAccount) :=
  txBody s d userId hashedPassword env

/-- `createEmployeeRecordInHRMS(employeeData, userId)`.  `hashFn` stands
for `bcryptjs.hash(·, 10)` (an external one-way hasher).  Returns the
outcome object together with the store state after the call. -/
def createEmployeeRecordInHRMS (hashFn : String → String)
    (env : ProvisionEnv) (d : EmployeeData) (userId : Option Nat)
    (s : State) : IntakeOutcome × State :=
  match s.findEmployeeByEmail d.email with
  | some existing =>
    ({ status := .skipped
       message := "Employee with email " ++ d.email ++ " already exists."
       employee_id := some existing.id
       user_id := none
       email_sent := none }, s)
  | none =>
    match s.findUserByEmail d.email with
    | some _ =>
      ({ status := .error
         message := "User with email " ++ d.email ++ " already exists."
         employee_id := none
         user_id := none
         email_sent := none }, s)
    | none =>
      let plainPassword := generateRandomPassword 12 env.rand
      let hashedPassword := hashFn plainPassword
      match runTransaction s d userId hashedPassword env with
      | .error msg =>
        ({ status := .error
           message := "Failed to create employee and user: " ++ msg
           employee_id := none
           user_id := none
           email_sent := none }, s)
      | .ok (s', emp, usr) =>
        if env.emailFails then
          ({ status := .partialSuccess
             message := "Employee record and user account created successfully, but welcome email failed to send."
             employee_id := some emp.id
             user_id := some usr.id
             email_sent := some false }, s')
        else
          ({ status := .success
             message := "Employee record and user account created successfully. Welcome email sent."
             employee_id := some emp.id
             user_id := some usr.id
             email_sent := some true }, s')

/-! ## Batch orchestrator (`createEmployee`) -/

/-- The `for (const employeeData of employeesData)` loop: provision each
element in array order, threading the store state, pushing
`{ ...employeeData, hrms_api_status }` onto the result list.  `envs i`
is the failure/randomness environment of the `i`-th call. -/
def runBatch (hashFn : String → String) (envs : Nat → ProvisionEnv)
    (userId : Option Nat) (i : Nat) (s : State) :
    List EmployeeData → State × List (EmployeeData × IntakeOutcome)
  | [] => (s, [])
  | d :: ds =>
    let r := createEmployeeRecordInHRMS hashFn (envs i) d userId s
    let rest := runBatch hashFn envs userId (i + 1) r.2 ds
    (rest.1, (d, r.1) :: rest.2)

/-- The `summary` object of the 200 response. -/
structure Summary where
  total_processed : Nat
  successful_creations : Nat
  emails_sent : Nat
  skipped : Nat
  errors : Nat
deriving Repr, DecidableEq

/-- The aggregation in `createEmployee`: `filter(...).length` counts over
`hrmsResponses`, with `successful_creations = successCount +
partialSuccessCount` and `emails_sent` counting strict `=== true`. -/
def mkSummary (parsedLen : Nat)
    (rs : List (EmployeeData × IntakeOutcome)) : Summary :=
  { total_processed := parsedLen
    successful_creations :=
      (rs.filter (fun r => r.2.status == IntakeStatus.success)).length +
      (rs.filter (fun r => r.2.status == IntakeStatus.partialSuccess)).length
    emails_sent := (rs.filter (fun r => r.2.email_sent == some true)).length
    skipped := (rs.filter (fun r => r.2.status == IntakeStatus.skipped)).length
    errors := (rs.filter (fun r => r.2.status == IntakeStatus.error)).length }

/-- The HTTP responses the `createEmployee` handler can produce. -/
inductive ApiResp where
  | badRequest (error : String)
  | serviceUnavailable (error : String)
  | ok (summary : Summary) (processed : List (EmployeeData × IntakeOutcome))
  | serverError (error details : String)
deriving Repr

/-- The `createEmployee(req, res)` handler.  `ai` is the module-level
client (`none` when `GEMINI_API_KEY` is absent), `prompt` the request
body's field (`none` when missing; the source's `!promptText` also
rejects the empty string), `rawAiResponse` the text returned by the
external generation call, and `parseJson` stands for `JSON.parse`
restricted to `EmployeeData[]` (throw = `.error`).  Returns the response
and the store state after the request. -/
def createEmployee (ai : Option Unit) (hashFn : String → String)
    (envs : Nat → ProvisionEnv)
    (parseJson : String → Except String (List EmployeeData))
    (userId : Option Nat) (prompt : Option String)
    (rawAiResponse : String) (s : State) : ApiResp × State :=
  match prompt with
  | none => (.badRequest "Missing 'prompt' field in request.", s)
  | some p =>
    if p = "" then (.badRequest "Missing 'prompt' field in request.", s)
    else
      match ai with
      | none =>
        (.serviceUnavailable "AI service is not available. Please set GEMINI_API_KEY in your .env file to enable AI functionality.", s)
      | some _ =>
        let cleanJsonString := extractJsonFromMarkdown rawAiResponse
        match parseJson cleanJsonString with
        | .error msg => (.serverError "Error processing employee creation" msg, s)
        | .ok employeesData =>
          let r := runBatch hashFn envs userId 0 s employeesData
          (.ok (mkSummary employeesData.length r.2) r.2, r.1)

/-! ## Module initialisation of the two controller variants -/

/-- What a controller module does at load time about the AI credential. -/
inductive InitAction where
  | proceed
  | exitProcess (code : Nat)
deriving Repr, DecidableEq

/-- The main controller's module initialisation: with the key present the
client is constructed; without it the module logs a warning and proceeds
with `ai = null` (the feature is disabled, the process keeps running). -/
def mainControllerInit (apiKey : Option String) : InitAction × Option Unit :=
  match apiKey with
  | some _ => (.proceed, some ())
  | none => (.proceed, none)

/-- The v1 controller variant's module initialisation
(`src/v1/controllers/employee.ts`): without the key it logs an error and
calls `process.exit(1)`. -/
def v1ControllerInit (apiKey : Option String) : InitAction :=
  match apiKey with
  | some _ => .proceed
  | none => .exitProcess 1

/-! ## Concrete fixtures (used by witnesses and counterexamples) -/

/-- A concrete extracted employee. -/
def wData : EmployeeData :=
  { first_name := "Jane", last_name := "Doe", email := "jane.doe@co.com"
    job_title := "Engineer", department := "Engineering"
    start_date := "2025-01-15" }

/-- A second concrete extracted employee with a distinct email. -/
def wData2 : EmployeeData :=
  { first_name := "John", last_name := "Smith", email := "john.smith@co.com"
    job_title := "Manager", department := "Product"
    start_date := "2025-02-01" }

/-- A pre-existing account record with no employee record. -/
def wUser : UserAccount :=
  { id := 7, name := "Jane Doe", email := "jane.doe@co.com"
    password := "someHash", role := "EMPLOYEE", employee_id := 3 }

/-- A pre-existing employee record for `wData2`'s email. -/
def wEmployee : Employee :=
  { id := 4, first_name := "John", last_name := "Smith"
    email := "john.smith@co.com", job_title := "Manager"
    department := "Product", joining_date := "2024-06-01"
    status := "active", created_by := 1 }

/-- A store holding only the dangling account `wUser`. -/
def wStateU : State :=
  { employees := [], users := [wUser], nextEmployeeId := 1, nextUserId := 8 }

/-- An empty store. -/
def wState0 : State :=
  { employees := [], users := [], nextEmployeeId := 1, nextUserId := 1 }

/-- A store holding only the employee `wEmployee` (and its account). -/
def wStateE : State :=
  { employees := [wEmployee]
    users := [{ id := 2, name := "John Smith", email := "john.smith@co.com"
                password := "h2", role := "EMPLOYEE", employee_id := 4 }]
    nextEmployeeId := 5, nextUserId := 3 }

/-- A benign per-record environment: nothing fails, draws are all 0. -/
def wEnv : ProvisionEnv :=
  { txFailEmployee := false, txFailUser := false, emailFails := false
    rand := fun _ => 0 }

/-- An environment whose `tx.user.create` throws. -/
def wEnvTxU : ProvisionEnv :=
  { txFailEmployee := false, txFailUser := true, emailFails := false
    rand := fun _ => 0 }

/-- An environment whose mail send throws. -/
def wEnvMail : ProvisionEnv :=
  { txFailEmployee := false, txFailUser := false, emailFails := true
    rand := fun _ => 0 }

/-- The benign environment for every batch position. -/
def wEnvs : Nat → ProvisionEnv := fun _ => wEnv

/-- A concrete stand-in for the bcrypt hasher (injective, never the
identity on its input). -/
def wHash : String → String := fun p => "hash:" ++ p

/-- A concrete stand-in for `JSON.parse` used by witnesses: accepts
exactly one known payload. -/
def wParse : String → Except String (List EmployeeData) :=
  fun t => if t = "[payload]" then .ok [wData] else .error "Unexpected token"

/-- A concrete fenced model response whose interior is the payload
`wParse` accepts. -/
def wRaw : String := "```json\n[payload]\n```"

/-! ## Supporting lemmas: store lookups -/

lemma find?_append_of_none {α : Type} (p : α → Bool) {l1 : List α}
    (l2 : List α) (h : l1.find? p = none) :
    (l1 ++ l2).find? p = l2.find? p := by
  simp [List.find?_append, h]

lemma findEmployee_append {s : State} {email : String} {emp : Employee}
    (h : s.findEmployeeByEmail email = none) (hemp : emp.email = email) :
    ((s.employees ++ [emp]).find? (fun e => e.email == email)) = some emp := by
  simp only [State.findEmployeeByEmail] at h
  rw [find?_append_of_none _ _ h]
  simp [List.find?, hemp]

lemma findUserAcc_append {s : State} {email : String} {usr : UserAccount}
    (h : s.findUserByEmail email = none) (husr : usr.email = email) :
    ((s.users ++ [usr]).find? (fun u => u.email == email)) = some usr := by
  simp only [State.findUserByEmail] at h
  rw [find?_append_of_none _ _ h]
  simp [List.find?, husr]

/-- Exhaustive case analysis of one `createEmployeeRecordInHRMS` call:
skip on an existing employee, error on an existing account, error with
rollback on a transaction failure, or a committed creation. -/
lemma provision_cases (hashFn : String → String) (env : ProvisionEnv)
    (d : EmployeeData) (userId : Option Nat) (s : State) :
    (∃ e, s.findEmployeeByEmail d.email = some e ∧
      createEmployeeRecordInHRMS hashFn env d userId s =
        ({ status := .skipped
           message := "Employee with email " ++ d.email ++ " already exists."
           employee_id := some e.id, user_id := none, email_sent := none },
         s)) ∨
    (s.findEmployeeByEmail d.email = none ∧
      (∃ u0, s.findUserByEmail d.email = some u0) ∧
      createEmployeeRecordInHRMS hashFn env d userId s =
        ({ status := .error
           message := "User with email " ++ d.email ++ " already exists."
           employee_id := none, user_id := none, email_sent := none }, s)) ∨
    (s.findEmployeeByEmail d.email = none ∧
      s.findUserByEmail d.email = none ∧
      (∃ m, (env.txFailEmployee = true ∨ env.txFailUser = true) ∧
        createEmployeeRecordInHRMS hashFn env d userId s =
          ({ status := .error
             message := "Failed to create employee and user: " ++ m
             employee_id := none, user_id := none, email_sent := none },
           s))) ∨
    (s.findEmployeeByEmail d.email = none ∧
      s.findUserByEmail d.email = none ∧
      env.txFailEmployee = false ∧ env.txFailUser = false ∧
      createEmployeeRecordInHRMS hashFn env d userId s =
        ((if env.emailFails then
            { status := .partialSuccess
              message := "Employee record and user account created successfully, but welcome email failed to send."
              employee_id := some s.nextEmployeeId
              user_id := some s.nextUserId
              email_sent := some false }
          else
            { status := .success
              message := "Employee record and user account created successfully. Welcome email sent."
              employee_id := some s.nextEmployeeId
              user_id := some s.nextUserId
              email_sent := some true }),
         committedState s d userId
           (hashFn (generateRandomPassword 12 env.rand)))) := by
  cases hfe : s.findEmployeeByEmail d.email with
  | some e =>
    exact Or.inl ⟨e, rfl, by simp [createEmployeeRecordInHRMS, hfe]⟩
  | none =>
    cases hfu : s.findUserByEmail d.email with
    | some u0 =>
      exact Or.inr (Or.inl ⟨rfl, ⟨u0, rfl⟩,
        by simp [createEmployeeRecordInHRMS, hfe, hfu]⟩)
    | none =>
      cases hte : env.txFailEmployee with
      | true =>
        refine Or.inr (Or.inr (Or.inl
          ⟨rfl, rfl, "employee create failed", Or.inl rfl, ?_⟩))
        simp [createEmployeeRecordInHRMS, hfe, hfu, runTransaction, txBody, hte]
      | false =>
        cases htu : env.txFailUser with
        | true =>
          refine Or.inr (Or.inr (Or.inl
            ⟨rfl, rfl, "user create failed", Or.inr rfl, ?_⟩))
          simp [createEmployeeRecordInHRMS, hfe, hfu, runTransaction, txBody,
            hte, htu]
        | false =>
          refine Or.inr (Or.inr (Or.inr ⟨rfl, rfl, rfl, rfl, ?_⟩))
          cases hm : env.emailFails <;>
            simp [createEmployeeRecordInHRMS, hfe, hfu, runTransaction,
              txBody, hte, htu, hm, committedState, employeeRow, accountRow]

/-! ## C5: existing account with no employee record -/

/-- C5: when no `EmployeeRecord` exists for the email but an
`AccountRecord` does, `createEmployeeRecordInHRMS` returns an `error`
outcome and leaves the store state exactly as it was (nothing created,
nothing overwritten). -/
theorem provision_existing_account_errors
    (hashFn : String → String) (env : ProvisionEnv) (d : EmployeeData)
    (userId : Option Nat) (s : State) (u : UserAccount)
    (hemp : s.findEmployeeByEmail d.email = none)
    (husr : s.findUserByEmail d.email = some u) :
    createEmployeeRecordInHRMS hashFn env d userId s =
      ({ status := .error
         message := "User with email " ++ d.email ++ " already exists."
         employee_id := none
         user_id := none
         email_sent := none }, s) := by
  simp [createEmployeeRecordInHRMS, hemp, husr]

/-- Witness for C5 at a concrete dangling account. -/
theorem provision_existing_account_errors_witness :
    (createEmployeeRecordInHRMS wHash wEnv wData none wStateU).1.status =
      IntakeStatus.error ∧
    (createEmployeeRecordInHRMS wHash wEnv wData none wStateU).2 = wStateU := by
  have h := provision_existing_account_errors wHash wEnv wData none wStateU wUser
    (by decide) (by decide)
  rw [h]
  exact ⟨rfl, rfl⟩

/-! ## C2: atomic creation of employee + account -/

/-- C2: on the creation path (no existing employee, no existing account),
if the transactional unit fails — at either the employee create or the
account create — `createEmployeeRecordInHRMS` returns an `error` outcome
carrying the failure reason and the store is exactly the pre-call state:
neither an employee row nor an account row for the email is visible, so
no employee-without-account or account-without-employee state results. -/
theorem provision_tx_failure_is_atomic
    (hashFn : String → String) (env : ProvisionEnv) (d : EmployeeData)
    (userId : Option Nat) (s : State)
    (hemp : s.findEmployeeByEmail d.email = none)
    (husr : s.findUserByEmail d.email = none)
    (hfail : env.txFailEmployee = true ∨ env.txFailUser = true) :
    (createEmployeeRecordInHRMS hashFn env d userId s).1.status =
      IntakeStatus.error ∧
    (∃ rsn, (createEmployeeRecordInHRMS hashFn env d userId s).1.message =
      "Failed to create employee and user: " ++ rsn) ∧
    (createEmployeeRecordInHRMS hashFn env d userId s).2 = s ∧
    (createEmployeeRecordInHRMS hashFn env d userId s).2.findEmployeeByEmail
      d.email = none ∧
    (createEmployeeRecordInHRMS hashFn env d userId s).2.findUserByEmail
      d.email = none := by
  cases he : env.txFailEmployee with
  | true =>
    refine ⟨?_, ⟨"employee create failed", ?_⟩, ?_, ?_, ?_⟩ <;>
      simp [createEmployeeRecordInHRMS, hemp, husr, runTransaction, txBody, he]
  | false =>
    have hu : env.txFailUser = true := by
      rcases hfail with h | h
      · rw [he] at h; exact absurd h (by simp)
      · exact h
    refine ⟨?_, ⟨"user create failed", ?_⟩, ?_, ?_, ?_⟩ <;>
      simp [createEmployeeRecordInHRMS, hemp, husr, runTransaction, txBody, he, hu]

/-- Witness for C2: a failing account create at a concrete input rolls
the whole unit back. -/
theorem provision_tx_failure_is_atomic_witness :
    (createEmployeeRecordInHRMS wHash wEnvTxU wData none wState0).1.status =
      IntakeStatus.error ∧
    (createEmployeeRecordInHRMS wHash wEnvTxU wData none wState0).2 = wState0 := by
  have h := provision_tx_failure_is_atomic wHash wEnvTxU wData none wState0
    (by decide) (by decide) (Or.inr (by decide))
  exact ⟨h.1, h.2.2.1⟩

/-! ## C3: mail failure does not roll back the created records -/

/-- C3: on the creation path with the transactional unit succeeding, the
employee and account rows are persisted with fresh ids; if the welcome
mail send throws the outcome is `partial_success` with `email_sent =
false` and the created ids, and both rows remain queryable; if the send
succeeds the outcome is `success` with `email_sent = true`. -/
theorem provision_email_outcome
    (hashFn : String → String) (env : ProvisionEnv) (d : EmployeeData)
    (userId : Option Nat) (s : State)
    (hemp : s.findEmployeeByEmail d.email = none)
    (husr : s.findUserByEmail d.email = none)
    (hte : env.txFailEmployee = false) (htu : env.txFailUser = false) :
    (∃ emp usr,
      emp.email = d.email ∧ usr.email = d.email ∧
      emp.id = s.nextEmployeeId ∧ usr.id = s.nextUserId ∧
      (createEmployeeRecordInHRMS hashFn env d userId s).2.employees =
        s.employees ++ [emp] ∧
      (createEmployeeRecordInHRMS hashFn env d userId s).2.users =
        s.users ++ [usr] ∧
      (createEmployeeRecordInHRMS hashFn env d userId s).2.findEmployeeByEmail
        d.email = some emp ∧
      (createEmployeeRecordInHRMS hashFn env d userId s).2.findUserByEmail
        d.email = some usr ∧
      (createEmployeeRecordInHRMS hashFn env d userId s).1.employee_id =
        some emp.id ∧
      (createEmployeeRecordInHRMS hashFn env d userId s).1.user_id =
        some usr.id) ∧
    (env.emailFails = true →
      (createEmployeeRecordInHRMS hashFn env d userId s).1.status =
        IntakeStatus.partialSuccess ∧
      (createEmployeeRecordInHRMS hashFn env d userId s).1.email_sent =
        some false) ∧
    (env.emailFails = false →
      (createEmployeeRecordInHRMS hashFn env d userId s).1.status =
        IntakeStatus.success ∧
      (createEmployeeRecordInHRMS hashFn env d userId s).1.email_sent =
        some true) := by
  have hkey : createEmployeeRecordInHRMS hashFn env d userId s =
      (if env.emailFails then
        ({ status := .partialSuccess
           message := "Employee record and user account created successfully, but welcome email failed to send."
           employee_id := some (employeeRow s d userId).id
           user_id := some (accountRow s d
             (hashFn (generateRandomPassword 12 env.rand))).id
           email_sent := some false },
         { employees := s.employees ++ [employeeRow s d userId]
           users := s.users ++ [accountRow s d
             (hashFn (generateRandomPassword 12 env.rand))]
           nextEmployeeId := s.nextEmployeeId + 1
           nextUserId := s.nextUserId + 1 })
      else
        ({ status := .success
           message := "Employee record and user account created successfully. Welcome email sent."
           employee_id := some (employeeRow s d userId).id
           user_id := some (accountRow s d
             (hashFn (generateRandomPassword 12 env.rand))).id
           email_sent := some true },
         { employees := s.employees ++ [employeeRow s d userId]
           users := s.users ++ [accountRow s d
             (hashFn (generateRandomPassword 12 env.rand))]
           nextEmployeeId := s.nextEmployeeId + 1
           nextUserId := s.nextUserId + 1 })) := by
    cases hm : env.emailFails <;>
      simp [createEmployeeRecordInHRMS, hemp, husr, runTransaction, txBody,
        hte, htu, hm]
  cases hm : env.emailFails with
  | true =>
    rw [hm, if_pos rfl] at hkey
    refine ⟨⟨employeeRow s d userId,
            accountRow s d (hashFn (generateRandomPassword 12 env.rand)),
            rfl, rfl, rfl, rfl, by rw [hkey], by rw [hkey], ?_, ?_,
            by rw [hkey], by rw [hkey]⟩, ?_, ?_⟩
    · rw [hkey]; exact findEmployee_append hemp rfl
    · rw [hkey]; exact findUserAcc_append husr rfl
    · intro _; rw [hkey]; exact ⟨rfl, rfl⟩
    · intro hc; exact absurd hc (by decide)
  | false =>
    rw [hm, if_neg (by simp)] at hkey
    refine ⟨⟨employeeRow s d userId,
            accountRow s d (hashFn (generateRandomPassword 12 env.rand)),
            rfl, rfl, rfl, rfl, by rw [hkey], by rw [hkey], ?_, ?_,
            by rw [hkey], by rw [hkey]⟩, ?_, ?_⟩
    · rw [hkey]; exact findEmployee_append hemp rfl
    · rw [hkey]; exact findUserAcc_append husr rfl
    · intro hc; exact absurd hc (by decide)
    · intro _; rw [hkey]; exact ⟨rfl, rfl⟩

/-- Witness for C3: a concrete mail-transport failure yields
`partial_success`, `email_sent = false`, and both rows persisted. -/
theorem provision_email_outcome_witness :
    (createEmployeeRecordInHRMS wHash wEnvMail wData none wState0).1.status =
      IntakeStatus.partialSuccess ∧
    (createEmployeeRecordInHRMS wHash wEnvMail wData none wState0).1.email_sent =
      some false ∧
    ((createEmployeeRecordInHRMS wHash wEnvMail wData none
        wState0).2.findEmployeeByEmail wData.email).isSome ∧
    ((createEmployeeRecordInHRMS wHash wEnvMail wData none
        wState0).2.findUserByEmail wData.email).isSome := by
  have h := provision_email_outcome wHash wEnvMail wData none wState0
    (by decide) (by decide) (by decide) (by decide)
  obtain ⟨⟨emp, usr, _, _, _, _, _, _, hfe, hfu, _, _⟩, hpt, _⟩ := h
  obtain ⟨hst, hes⟩ := hpt (by decide)
  exact ⟨hst, hes, by rw [hfe]; rfl, by rw [hfu]; rfl⟩

/-! ## C8: password generation and storage -/

/-- C8: the generated credential has exactly the configured length
(`createEmployeeRecordInHRMS` uses the default 12) and draws every
character from the alphanumeric-plus-symbol alphabet; every account row
visible after a provision call is either a pre-existing row or stores the
hash of the generated credential — so whenever hashing is not the
identity on this credential and the plaintext was not already stored, no
account row ever holds the plaintext. -/
theorem password_length_charset_and_hashed_storage
    (hashFn : String → String) (env : ProvisionEnv) (d : EmployeeData)
    (userId : Option Nat) (s : State) :
    (∀ len rand, (generateRandomPassword len rand).length = len) ∧
    (∀ len rand c, c ∈ (generateRandomPassword len rand).data →
      c ∈ charset.data) ∧
    (∀ u ∈ (createEmployeeRecordInHRMS hashFn env d userId s).2.users,
      u ∈ s.users ∨
      u.password = hashFn (generateRandomPassword 12 env.rand)) ∧
    (hashFn (generateRandomPassword 12 env.rand) ≠
        generateRandomPassword 12 env.rand →
      (∀ u ∈ s.users, u.password ≠ generateRandomPassword 12 env.rand) →
      ∀ u ∈ (createEmployeeRecordInHRMS hashFn env d userId s).2.users,
        u.password ≠ generateRandomPassword 12 env.rand) := by
  have hlen : ∀ len rand, (generateRandomPassword len rand).length = len := by
    intro len rand
    show ((List.range len).map
      (fun i => charset.data.getD (rand i % charset.length) 'A')).length = len
    rw [List.length_map, List.length_range]
  have hmem : ∀ len rand c, c ∈ (generateRandomPassword len rand).data →
      c ∈ charset.data := by
    intro len rand c hc
    simp only [generateRandomPassword, List.mem_map] at hc
    obtain ⟨i, _, hi⟩ := hc
    have hpos : 0 < charset.data.length := by decide
    have hlt : rand i % charset.length < charset.data.length :=
      Nat.mod_lt _ hpos
    rw [← hi, List.getD_eq_getElem charset.data 'A' hlt]
    exact charset.data.getElem_mem hlt
  have hstore : ∀ u ∈ (createEmployeeRecordInHRMS hashFn env d userId s).2.users,
      u ∈ s.users ∨
      u.password = hashFn (generateRandomPassword 12 env.rand) := by
    intro u hu
    rcases provision_cases hashFn env d userId s with
      ⟨e, _, heq⟩ | ⟨_, _, heq⟩ | ⟨_, _, m, _, heq⟩ | ⟨_, _, _, _, heq⟩
    · rw [heq] at hu; exact Or.inl hu
    · rw [heq] at hu; exact Or.inl hu
    · rw [heq] at hu; exact Or.inl hu
    · rw [heq] at hu
      have hu' : u ∈ s.users ++
          [accountRow s d (hashFn (generateRandomPassword 12 env.rand))] := hu
      rcases List.mem_append.1 hu' with h | h
      · exact Or.inl h
      · have := List.mem_singleton.1 h
        subst this
        exact Or.inr rfl
  refine ⟨hlen, hmem, hstore, ?_⟩
  intro hne hpre u hu
  rcases hstore u hu with h | h
  · exact hpre u h
  · rw [h]; exact hne

/-- Witness for C8 at a concrete provision call with a non-identity
hasher and a clean pre-state. -/
theorem password_length_charset_and_hashed_storage_witness :
    (generateRandomPassword 12 wEnv.rand).length = 12 ∧
    (∀ u ∈ (createEmployeeRecordInHRMS wHash wEnv wData none wState0).2.users,
      u.password ≠ generateRandomPassword 12 wEnv.rand) := by
  have h := password_length_charset_and_hashed_storage wHash wEnv wData none
    wState0
  refine ⟨h.1 12 wEnv.rand, h.2.2.2 (by decide) ?_⟩
  intro u hu
  simp [wState0] at hu

/-! ## C9 (corrected): absent AI credential -/

/-- C9 counterexample: in the v1 controller variant — one of the cited
sources of the claim — module initialisation with the credential absent
calls `process.exit(1)`, i.e. it does terminate the process, contrary to
the claim's assertion that absence of the credential never terminates the
process. -/
theorem v1_missing_api_key_exits_process :
    v1ControllerInit none = InitAction.exitProcess 1 ∧
    InitAction.exitProcess 1 ≠ InitAction.proceed := by
  exact ⟨rfl, by decide⟩

/-- C9 as amended: in the main controller, module initialisation with the
credential absent proceeds (no process exit) with the client unset, and
the intake handler then fails fast with the 503 ServiceUnavailable
response for the whole batch, leaving the store untouched — no
persistence call, no provisioning. -/
theorem missing_api_key_yields_503_no_persistence
    (hashFn : String → String) (envs : Nat → ProvisionEnv)
    (parseJson : String → Except String (List EmployeeData))
    (userId : Option Nat) (p : String) (raw : String) (s : State)
    (hp : p ≠ "") :
    mainControllerInit none = (InitAction.proceed, none) ∧
    createEmployee none hashFn envs parseJson userId (some p) raw s =
      (.serviceUnavailable "AI service is not available. Please set GEMINI_API_KEY in your .env file to enable AI functionality.", s) := by
  refine ⟨rfl, ?_⟩
  simp [createEmployee, hp]

/-- Witness for the amended C9 at a concrete request. -/
theorem missing_api_key_yields_503_no_persistence_witness :
    (createEmployee none wHash wEnvs wParse none (some "add Jane") "" wState0).2 =
      wState0 := by
  have h := missing_api_key_yields_503_no_persistence wHash wEnvs wParse none
    "add Jane" "" wState0 (by decide)
  rw [h.2]

/-! ## Supporting lemmas: the batch loop -/

lemma runBatch_map_fst (hashFn : String → String) (envs : Nat → ProvisionEnv)
    (userId : Option Nat) :
    ∀ (ds : List EmployeeData) (i : Nat) (s : State),
      ((runBatch hashFn envs userId i s ds).2).map Prod.fst = ds := by
  intro ds
  induction ds with
  | nil => intro i s; rfl
  | cons d0 ds ih => intro i s; simp [runBatch, ih]

lemma provision_employees_prefix (hashFn : String → String)
    (env : ProvisionEnv) (d : EmployeeData) (userId : Option Nat)
    (s : State) :
    ∃ t, (createEmployeeRecordInHRMS hashFn env d userId s).2.employees =
      s.employees ++ t := by
  rcases provision_cases hashFn env d userId s with
    ⟨e, _, heq⟩ | ⟨_, _, heq⟩ | ⟨_, _, m, _, heq⟩ | ⟨_, _, _, _, heq⟩
  · exact ⟨[], by rw [heq]; simp⟩
  · exact ⟨[], by rw [heq]; simp⟩
  · exact ⟨[], by rw [heq]; simp⟩
  · exact ⟨[employeeRow s d userId], by rw [heq]; rfl⟩

lemma runBatch_employees_prefix (hashFn : String → String)
    (envs : Nat → ProvisionEnv) (userId : Option Nat) :
    ∀ (ds : List EmployeeData) (i : Nat) (s : State),
      ∃ t, (runBatch hashFn envs userId i s ds).1.employees =
        s.employees ++ t := by
  intro ds
  induction ds with
  | nil => intro i s; exact ⟨[], by simp [runBatch]⟩
  | cons d0 ds ih =>
    intro i s
    obtain ⟨t1, ht1⟩ := provision_employees_prefix hashFn (envs i) d0 userId s
    obtain ⟨t2, ht2⟩ :=
      ih (i + 1) (createEmployeeRecordInHRMS hashFn (envs i) d0 userId s).2
    refine ⟨t1 ++ t2, ?_⟩
    show (runBatch hashFn envs userId (i + 1)
      (createEmployeeRecordInHRMS hashFn (envs i) d0 userId s).2 ds).1.employees =
      s.employees ++ (t1 ++ t2)
    rw [ht2, ht1, List.append_assoc]

lemma provision_nonerror_present (hashFn : String → String)
    (env : ProvisionEnv) (d : EmployeeData) (userId : Option Nat)
    (s : State)
    (h : (createEmployeeRecordInHRMS hashFn env d userId s).1.status ≠
      IntakeStatus.error) :
    ∃ e ∈ (createEmployeeRecordInHRMS hashFn env d userId s).2.employees,
      e.email = d.email := by
  rcases provision_cases hashFn env d userId s with
    ⟨e, hfind, heq⟩ | ⟨_, _, heq⟩ | ⟨_, _, m, _, heq⟩ | ⟨_, _, _, _, heq⟩
  · refine ⟨e, ?_, ?_⟩
    · rw [heq]
      exact List.mem_of_find?_eq_some hfind
    · have := List.find?_some hfind
      simpa using this
  · exact absurd (by rw [heq]) h
  · exact absurd (by rw [heq]) h
  · refine ⟨employeeRow s d userId, ?_, rfl⟩
    rw [heq]
    show employeeRow s d userId ∈ s.employees ++ [employeeRow s d userId]
    simp

lemma runBatch_nonerror_present (hashFn : String → String)
    (envs : Nat → ProvisionEnv) (userId : Option Nat) :
    ∀ (ds : List EmployeeData) (i : Nat) (s : State),
      (∀ x ∈ (runBatch hashFn envs userId i s ds).2,
        x.2.status ≠ IntakeStatus.error) →
      ∀ d ∈ ds, ∃ e ∈ (runBatch hashFn envs userId i s ds).1.employees,
        e.email = d.email := by
  intro ds
  induction ds with
  | nil => intro i s _ d hd; cases hd
  | cons d0 ds ih =>
    intro i s hall d hd
    have hstep : runBatch hashFn envs userId i s (d0 :: ds) =
        ((runBatch hashFn envs userId (i + 1)
            (createEmployeeRecordInHRMS hashFn (envs i) d0 userId s).2 ds).1,
         (d0, (createEmployeeRecordInHRMS hashFn (envs i) d0 userId s).1) ::
         (runBatch hashFn envs userId (i + 1)
            (createEmployeeRecordInHRMS hashFn (envs i) d0 userId s).2 ds).2) :=
      rfl
    rcases List.mem_cons.1 hd with rfl | hd'
    · have h0 : (createEmployeeRecordInHRMS hashFn (envs i) d userId s).1.status ≠
          IntakeStatus.error := by
        have := hall (d, (createEmployeeRecordInHRMS hashFn (envs i) d userId s).1)
          (by rw [hstep]; exact List.mem_cons_self _ _)
        exact this
      obtain ⟨e, he, hemail⟩ :=
        provision_nonerror_present hashFn (envs i) d userId s h0
      obtain ⟨t, ht⟩ := runBatch_employees_prefix hashFn envs userId ds (i + 1)
        (createEmployeeRecordInHRMS hashFn (envs i) d userId s).2
      refine ⟨e, ?_, hemail⟩
      rw [hstep]
      show e ∈ (runBatch hashFn envs userId (i + 1)
        (createEmployeeRecordInHRMS hashFn (envs i) d userId s).2 ds).1.employees
      rw [ht]
      exact List.mem_append.2 (Or.inl he)
    · have hall' : ∀ x ∈ (runBatch hashFn envs userId (i + 1)
          (createEmployeeRecordInHRMS hashFn (envs i) d0 userId s).2 ds).2,
          x.2.status ≠ IntakeStatus.error := by
        intro x hx
        exact hall x (by rw [hstep]; exact List.mem_cons_of_mem _ hx)
      obtain ⟨e, he, hemail⟩ := ih (i + 1)
        (createEmployeeRecordInHRMS hashFn (envs i) d0 userId s).2 hall' d hd'
      refine ⟨e, ?_, hemail⟩
      rw [hstep]
      exact he

lemma runBatch_all_skipped (hashFn : String → String)
    (envs : Nat → ProvisionEnv) (userId : Option Nat) :
    ∀ (ds : List EmployeeData) (i : Nat) (s : State),
      (∀ d ∈ ds, ∃ e ∈ s.employees, e.email = d.email) →
      (runBatch hashFn envs userId i s ds).1 = s ∧
      (∀ x ∈ (runBatch hashFn envs userId i s ds).2,
        x.2.status = IntakeStatus.skipped) := by
  intro ds
  induction ds with
  | nil => intro i s _; exact ⟨rfl, by intro x hx; cases hx⟩
  | cons d0 ds ih =>
    intro i s hall
    obtain ⟨e, he, hemail⟩ := hall d0 (List.mem_cons_self _ _)
    have hsome : (s.findEmployeeByEmail d0.email).isSome := by
      apply List.find?_isSome.2
      exact ⟨e, he, by simp [hemail]⟩
    cases hfind : s.findEmployeeByEmail d0.email with
    | none => rw [hfind] at hsome; cases hsome
    | some e' =>
      have hprov : createEmployeeRecordInHRMS hashFn (envs i) d0 userId s =
          ({ status := .skipped
             message := "Employee with email " ++ d0.email ++ " already exists."
             employee_id := some e'.id, user_id := none, email_sent := none },
           s) := by
        simp [createEmployeeRecordInHRMS, hfind]
      have hstep : runBatch hashFn envs userId i s (d0 :: ds) =
          ((runBatch hashFn envs userId (i + 1)
              (createEmployeeRecordInHRMS hashFn (envs i) d0 userId s).2 ds).1,
           (d0, (createEmployeeRecordInHRMS hashFn (envs i) d0 userId s).1) ::
           (runBatch hashFn envs userId (i + 1)
              (createEmployeeRecordInHRMS hashFn (envs i) d0 userId s).2 ds).2) :=
        rfl
      have ihs := ih (i + 1) s (fun d hd => hall d (List.mem_cons_of_mem _ hd))
      constructor
      · rw [hstep]
        show (runBatch hashFn envs userId (i + 1)
          (createEmployeeRecordInHRMS hashFn (envs i) d0 userId s).2 ds).1 = s
        rw [hprov]
        exact ihs.1
      · intro x hx
        rw [hstep] at hx
        rcases List.mem_cons.1 hx with rfl | hx'
        · rw [hprov]
        · rw [hprov] at hx'
          exact ihs.2 x hx'

/-! ## C6: sequential per-element processing, order preserved -/

/-- C6: on a successfully parsed extraction array, the handler provisions
each element sequentially in array order (one element's outcome never
prevents the next from being processed — the loop equation holds for
every state and every head outcome), and the 200 response's
`processed_employees` has exactly one entry per parsed element, in order:
mapping the entries back to their extracted data gives the parsed array
itself. -/
theorem batch_processes_each_element_in_order
    (hashFn : String → String) (envs : Nat → ProvisionEnv)
    (parseJson : String → Except String (List EmployeeData))
    (userId : Option Nat) (p raw : String) (s : State)
    (ds : List EmployeeData)
    (hp : p ≠ "")
    (hparse : parseJson (extractJsonFromMarkdown raw) = .ok ds) :
    createEmployee (some ()) hashFn envs parseJson userId (some p) raw s =
      (.ok (mkSummary ds.length (runBatch hashFn envs userId 0 s ds).2)
         (runBatch hashFn envs userId 0 s ds).2,
       (runBatch hashFn envs userId 0 s ds).1) ∧
    (runBatch hashFn envs userId 0 s ds).2.map Prod.fst = ds ∧
    (runBatch hashFn envs userId 0 s ds).2.length = ds.length ∧
    (∀ (i : Nat) (s' : State) (d0 : EmployeeData) (ds' : List EmployeeData),
      runBatch hashFn envs userId i s' (d0 :: ds') =
        ((runBatch hashFn envs userId (i + 1)
            (createEmployeeRecordInHRMS hashFn (envs i) d0 userId s').2 ds').1,
         (d0, (createEmployeeRecordInHRMS hashFn (envs i) d0 userId s').1) ::
         (runBatch hashFn envs userId (i + 1)
            (createEmployeeRecordInHRMS hashFn (envs i) d0 userId s').2 ds').2)) := by
  refine ⟨?_, runBatch_map_fst hashFn envs userId ds 0 s, ?_, ?_⟩
  · simp [createEmployee, hp, hparse]
  · have hm := runBatch_map_fst hashFn envs userId ds 0 s
    have : ((runBatch hashFn envs userId 0 s ds).2.map Prod.fst).length =
        ds.length := by rw [hm]
    simpa using this
  · intro i s' d0 ds'
    rfl

/-- Witness for C6 at a concrete one-element batch. -/
theorem batch_processes_each_element_in_order_witness :
    (runBatch wHash wEnvs none 0 wState0 [wData]).2.map Prod.fst = [wData] := by
  have h := batch_processes_each_element_in_order wHash wEnvs wParse none
    "add Jane" wRaw wState0 [wData] (by decide) (by rfl)
  exact h.2.1

/-! ## C7: the response summary -/

/-- C7: the 200 response returns the full per-record list, and its
summary satisfies: `total_processed` is the number of parsed elements,
`successful_creations` is the count of `success` outcomes plus the count
of `partial_success` outcomes, `emails_sent` is the count of outcomes
whose `email_sent` is `true`, `skipped` the count of `skipped` outcomes,
`errors` the count of `error` outcomes. -/
theorem batch_summary_aggregates_outcomes
    (hashFn : String → String) (envs : Nat → ProvisionEnv)
    (parseJson : String → Except String (List EmployeeData))
    (userId : Option Nat) (p raw : String) (s : State)
    (ds : List EmployeeData)
    (hp : p ≠ "")
    (hparse : parseJson (extractJsonFromMarkdown raw) = .ok ds) :
    createEmployee (some ()) hashFn envs parseJson userId (some p) raw s =
      (.ok (mkSummary ds.length (runBatch hashFn envs userId 0 s ds).2)
         (runBatch hashFn envs userId 0 s ds).2,
       (runBatch hashFn envs userId 0 s ds).1) ∧
    (mkSummary ds.length
      (runBatch hashFn envs userId 0 s ds).2).total_processed = ds.length ∧
    (mkSummary ds.length
      (runBatch hashFn envs userId 0 s ds).2).successful_creations =
      (runBatch hashFn envs userId 0 s ds).2.countP
        (fun x => x.2.status == IntakeStatus.success) +
      (runBatch hashFn envs userId 0 s ds).2.countP
        (fun x => x.2.status == IntakeStatus.partialSuccess) ∧
    (mkSummary ds.length
      (runBatch hashFn envs userId 0 s ds).2).emails_sent =
      (runBatch hashFn envs userId 0 s ds).2.countP
        (fun x => x.2.email_sent == some true) ∧
    (mkSummary ds.length
      (runBatch hashFn envs userId 0 s ds).2).skipped =
      (runBatch hashFn envs userId 0 s ds).2.countP
        (fun x => x.2.status == IntakeStatus.skipped) ∧
    (mkSummary ds.length
      (runBatch hashFn envs userId 0 s ds).2).errors =
      (runBatch hashFn envs userId 0 s ds).2.countP
        (fun x => x.2.status == IntakeStatus.error) := by
  refine ⟨?_, rfl, ?_, ?_, ?_, ?_⟩
  · simp [createEmployee, hp, hparse]
  all_goals simp [mkSummary, List.countP_eq_length_filter]

/-- Witness for C7: the concrete one-element benign batch counts one
success, one email sent, no skips, no errors. -/
theorem batch_summary_aggregates_outcomes_witness :
    mkSummary 1 (runBatch wHash wEnvs none 0 wState0 [wData]).2 =
      { total_processed := 1, successful_creations := 1, emails_sent := 1
        skipped := 0, errors := 0 } := by
  have h := batch_summary_aggregates_outcomes wHash wEnvs wParse none
    "add Jane" wRaw wState0 [wData] (by decide) (by rfl)
  decide

/-! ## C1 (corrected): skip on existing employee; idempotent re-runs -/

/-- C1 counterexample: with a dangling account record (a user row with no
employee row) for the extracted email, the first run of the batch yields
an `error` for that record, and re-submitting the identical batch yields
`error` again — not `skipped` — so the second run is not `skipped` for
every record, contrary to the claim. -/
theorem rerun_after_error_repeats_error :
    ((runBatch wHash wEnvs none 0
        (runBatch wHash wEnvs none 0 wStateU [wData]).1 [wData]).2.map
      (fun x => x.2.status)) = [IntakeStatus.error] ∧
    IntakeStatus.error ≠ IntakeStatus.skipped := by
  exact ⟨by decide, by decide⟩

/-- C1 as amended: an extracted employee whose email already has an
`EmployeeRecord` yields `skipped` carrying the existing employee's id,
with the store untouched; and re-submitting an identical batch is
idempotent for every record whose first-run outcome was not `error`: if
no first-run record erred, the second run yields `skipped` for every
record and leaves the persisted state unchanged. -/
theorem provision_skip_and_rerun_idempotence :
    (∀ (hashFn : String → String) (env : ProvisionEnv) (d : EmployeeData)
        (userId : Option Nat) (s : State) (e : Employee),
      s.findEmployeeByEmail d.email = some e →
      createEmployeeRecordInHRMS hashFn env d userId s =
        ({ status := .skipped
           message := "Employee with email " ++ d.email ++ " already exists."
           employee_id := some e.id, user_id := none, email_sent := none },
         s)) ∧
    (∀ (hashFn hashFn2 : String → String)
        (envs1 envs2 : Nat → ProvisionEnv)
        (userId1 userId2 : Option Nat) (s : State) (ds : List EmployeeData),
      (∀ x ∈ (runBatch hashFn envs1 userId1 0 s ds).2,
        x.2.status ≠ IntakeStatus.error) →
      (runBatch hashFn2 envs2 userId2 0
          (runBatch hashFn envs1 userId1 0 s ds).1 ds).1 =
        (runBatch hashFn envs1 userId1 0 s ds).1 ∧
      (∀ x ∈ (runBatch hashFn2 envs2 userId2 0
          (runBatch hashFn envs1 userId1 0 s ds).1 ds).2,
        x.2.status = IntakeStatus.skipped)) := by
  constructor
  · intro hashFn env d userId s e h
    simp [createEmployeeRecordInHRMS, h]
  · intro hashFn hashFn2 envs1 envs2 userId1 userId2 s ds hall
    have hpresent := runBatch_nonerror_present hashFn envs1 userId1 ds 0 s hall
    exact runBatch_all_skipped hashFn2 envs2 userId2 ds 0
      (runBatch hashFn envs1 userId1 0 s ds).1 hpresent

/-- Witness for the amended C1: a concrete existing employee is skipped,
and a concrete benign one-element batch re-run leaves the state
unchanged. -/
theorem provision_skip_and_rerun_idempotence_witness :
    (createEmployeeRecordInHRMS wHash wEnv wData2 none wStateE).1.status =
      IntakeStatus.skipped ∧
    (runBatch wHash wEnvs none 0
        (runBatch wHash wEnvs none 0 wState0 [wData]).1 [wData]).1 =
      (runBatch wHash wEnvs none 0 wState0 [wData]).1 := by
  constructor
  · have h1 := provision_skip_and_rerun_idempotence.1 wHash wEnv wData2 none
      wStateE wEmployee (by decide)
    rw [h1]
  · exact (provision_skip_and_rerun_idempotence.2 wHash wHash wEnvs wEnvs
      none none wState0 [wData] (by decide)).1

/-! ## Supporting lemmas: fences and whitespace -/

lemma startsFence_iff (l : List Char) :
    startsFence l = true ↔ l.take 3 = ['`', '`', '`'] := by
  simp [startsFence]

lemma startsJson_iff (l : List Char) :
    startsJson l = true ↔ l.take 4 = ['j', 's', 'o', 'n'] := by
  simp [startsJson]

lemma length_ge_of_startsFence {l : List Char} (h : startsFence l = true) :
    3 ≤ l.length := by
  have h3 := (startsFence_iff l).1 h
  have hl : (l.take 3).length = 3 := by rw [h3]; rfl
  simp only [List.length_take] at hl
  omega

lemma length_ge_of_startsJson {l : List Char} (h : startsJson l = true) :
    4 ≤ l.length := by
  have h4 := (startsJson_iff l).1 h
  have hl : (l.take 4).length = 4 := by rw [h4]; rfl
  simp only [List.length_take] at hl
  omega

lemma startsFence_append {l : List Char} (post : List Char)
    (h : startsFence l = true) : startsFence (l ++ post) = true := by
  have hlen := length_ge_of_startsFence h
  rw [startsFence_iff] at h ⊢
  rw [List.take_append_eq_append_take, h]
  have h0 : 3 - l.length = 0 := by omega
  rw [h0]
  rfl

lemma startsJson_append {l : List Char} (post : List Char)
    (h : startsJson l = true) : startsJson (l ++ post) = true := by
  have hlen := length_ge_of_startsJson h
  rw [startsJson_iff] at h ⊢
  rw [List.take_append_eq_append_take, h]
  have h0 : 4 - l.length = 0 := by omega
  rw [h0]
  rfl

lemma json_decomp {r : List Char} (h : startsJson r = true) :
    r = 'j' :: 's' :: 'o' :: 'n' :: (r.drop 4) := by
  conv_lhs => rw [← List.take_append_drop 4 r]
  rw [(startsJson_iff r).1 h]
  rfl

lemma fence_decomp {l : List Char} (h : startsFence l = true) :
    l = '`' :: '`' :: '`' :: (l.drop 3) := by
  conv_lhs => rw [← List.take_append_drop 3 l]
  rw [(startsFence_iff l).1 h]
  rfl

lemma drop_three_append {l : List Char} (post : List Char)
    (h : 3 ≤ l.length) : (l ++ post).drop 3 = l.drop 3 ++ post := by
  rw [List.drop_append_eq_append_drop]
  have h0 : 3 - l.length = 0 := by omega
  rw [h0]
  rfl

lemma drop_four_append {l : List Char} (post : List Char)
    (h : 4 ≤ l.length) : (l ++ post).drop 4 = l.drop 4 ++ post := by
  rw [List.drop_append_eq_append_drop]
  have h0 : 4 - l.length = 0 := by omega
  rw [h0]
  rfl

lemma not_startsFence_of_ws {c : Char} (r : List Char)
    (h : isJsWs c = true) : startsFence (c :: r) = false := by
  cases hc : startsFence (c :: r) with
  | false => rfl
  | true =>
    exfalso
    have h3 := (startsFence_iff _).1 hc
    rw [List.take_succ_cons] at h3
    injection h3 with h1 _
    rw [h1] at h
    exact absurd h (by decide)

lemma hasFence_of_closesHere : ∀ l : List Char,
    closesHere l = true → hasFence l = true := by
  intro l
  induction l with
  | nil => intro h; cases h
  | cons c r ih =>
    intro h
    rw [closesHere] at h
    rw [hasFence]
    rcases Bool.or_eq_true_iff.1 h with h1 | h2
    · rw [h1]; rfl
    · rw [ih (Bool.and_eq_true_iff.1 h2).2, Bool.or_true]

lemma not_startsFence_of_not_closesHere {c : Char} {r : List Char}
    (h : closesHere (c :: r) = false) : startsFence (c :: r) = false := by
  rw [closesHere] at h
  exact (Bool.or_eq_false_iff.1 h).1

/-! ## Supporting lemmas: the lazy group and block interiors -/

lemma lazyLoop_spec : ∀ (l acc : List Char),
    lazyLoop acc l =
      if hasFence l then some (acc.reverse ++ untilClose l) else none := by
  intro l
  induction l with
  | nil =>
    intro acc
    simp [lazyLoop, closesHere, hasFence]
  | cons c r ih =>
    intro acc
    cases hc : closesHere (c :: r) with
    | true =>
      rw [lazyLoop, if_pos hc, hasFence_of_closesHere _ hc, if_pos rfl]
      rw [untilClose, if_pos hc, List.append_nil]
    | false =>
      rw [lazyLoop, if_neg (by rw [hc]; exact Bool.false_ne_true), ih]
      have hsf := not_startsFence_of_not_closesHere hc
      have hfe : hasFence (c :: r) = hasFence r := by
        rw [hasFence, hsf, Bool.false_or]
      have huc : untilClose (c :: r) = c :: untilClose r := by
        rw [untilClose, if_neg (by rw [hc]; exact Bool.false_ne_true)]
      rw [hfe, huc]
      cases hf : hasFence r <;> simp

lemma hasFence_dropWhile : ∀ l : List Char,
    hasFence (l.dropWhile isJsWs) = hasFence l := by
  intro l
  induction l with
  | nil => rfl
  | cons c r ih =>
    cases hw : isJsWs c with
    | true =>
      rw [List.dropWhile_cons_of_pos hw, ih, hasFence,
        not_startsFence_of_ws r hw, Bool.false_or]
    | false =>
      rw [List.dropWhile_cons_of_neg (by rw [hw]; exact Bool.false_ne_true)]

lemma matchInner_spec (l : List Char) :
    matchInner l =
      if hasFence l then some (untilClose (l.dropWhile isJsWs)) else none := by
  rw [matchInner, lazyLoop_spec, hasFence_dropWhile]
  cases hasFence l <;> simp

lemma interiorToFence_spec : ∀ l : List Char,
    interiorToFence l =
      if hasFence l then some (untilFence l) else none := by
  intro l
  induction l with
  | nil => rfl
  | cons c r ih =>
    cases hsf : startsFence (c :: r) with
    | true =>
      rw [interiorToFence, if_pos hsf, untilFence, if_pos hsf]
      rw [show hasFence (c :: r) = true by rw [hasFence, hsf]; rfl, if_pos rfl]
    | false =>
      have hfe : hasFence (c :: r) = hasFence r := by
        rw [hasFence, hsf, Bool.false_or]
      have huf : untilFence (c :: r) = c :: untilFence r := by
        rw [untilFence, if_neg (by rw [hsf]; exact Bool.false_ne_true)]
      rw [interiorToFence,
        if_neg (by rw [hsf]; exact Bool.false_ne_true), ih, hfe, huf]
      cases hf : hasFence r <;> simp

lemma untilFence_ws_all_of_closesHere : ∀ l : List Char,
    closesHere l = true → ∀ x ∈ untilFence l, isJsWs x = true := by
  intro l
  induction l with
  | nil => intro h; cases h
  | cons c r ih =>
    intro h x hx
    rw [closesHere] at h
    cases hsf : startsFence (c :: r) with
    | true =>
      rw [untilFence, if_pos hsf] at hx
      cases hx
    | false =>
      rw [hsf, Bool.false_or, Bool.and_eq_true_iff] at h
      rw [untilFence, if_neg (by rw [hsf]; exact Bool.false_ne_true)] at hx
      rcases List.mem_cons.1 hx with rfl | hx'
      · exact h.1
      · exact ih h.2 x hx'

lemma untilFence_eq_untilClose_append : ∀ l : List Char,
    ∃ w, untilFence l = untilClose l ++ w ∧ ∀ x ∈ w, isJsWs x = true := by
  intro l
  induction l with
  | nil => exact ⟨[], rfl, by intro x hx; cases hx⟩
  | cons c r ih =>
    cases hc : closesHere (c :: r) with
    | true =>
      refine ⟨untilFence (c :: r), ?_, untilFence_ws_all_of_closesHere _ hc⟩
      rw [untilClose, if_pos hc]
      rfl
    | false =>
      obtain ⟨w, hw, hws⟩ := ih
      refine ⟨w, ?_, hws⟩
      have hsf := not_startsFence_of_not_closesHere hc
      rw [untilFence, if_neg (by rw [hsf]; exact Bool.false_ne_true),
        untilClose, if_neg (by rw [hc]; exact Bool.false_ne_true), hw]
      rfl

lemma untilFence_dropWhile : ∀ l : List Char,
    untilFence l = l.takeWhile isJsWs ++ untilFence (l.dropWhile isJsWs) := by
  intro l
  induction l with
  | nil => rfl
  | cons c r ih =>
    cases hw : isJsWs c with
    | true =>
      rw [List.takeWhile_cons_of_pos hw, List.dropWhile_cons_of_pos hw]
      rw [untilFence, if_neg (by
        rw [not_startsFence_of_ws r hw]; exact Bool.false_ne_true), ih]
      rfl
    | false =>
      rw [List.takeWhile_cons_of_neg (by rw [hw]; exact Bool.false_ne_true),
        List.dropWhile_cons_of_neg (by rw [hw]; exact Bool.false_ne_true)]
      rfl

/-! ## Supporting lemmas: trimming -/

lemma dropWhile_ws_append (w l : List Char)
    (hw : ∀ x ∈ w, isJsWs x = true) :
    (w ++ l).dropWhile isJsWs = l.dropWhile isJsWs := by
  induction w with
  | nil => rfl
  | cons c w' ih =>
    rw [List.cons_append,
      List.dropWhile_cons_of_pos (hw c (List.mem_cons_self _ _))]
    exact ih (fun x hx => hw x (List.mem_cons_of_mem _ hx))

lemma dropWhile_ws_of_all (w : List Char) (hw : ∀ x ∈ w, isJsWs x = true) :
    w.dropWhile isJsWs = [] := by
  have := dropWhile_ws_append w [] hw
  simpa using this

lemma jsTrimRight_append_ws (l w : List Char)
    (hw : ∀ x ∈ w, isJsWs x = true) :
    jsTrimRight (l ++ w) = jsTrimRight l := by
  unfold jsTrimRight
  rw [List.reverse_append,
    dropWhile_ws_append w.reverse l.reverse
      (fun x hx => hw x (List.mem_reverse.1 hx))]

lemma jsTrim_ws_append (w l : List Char) (hw : ∀ x ∈ w, isJsWs x = true) :
    jsTrim (w ++ l) = jsTrim l := by
  unfold jsTrim jsTrimLeft
  rw [dropWhile_ws_append w l hw]

lemma jsTrim_append_ws (l w : List Char) (hw : ∀ x ∈ w, isJsWs x = true) :
    jsTrim (l ++ w) = jsTrim l := by
  induction l with
  | nil =>
    show jsTrim ([] ++ w) = jsTrim []
    rw [List.nil_append]
    unfold jsTrim jsTrimLeft
    rw [dropWhile_ws_of_all w hw]
    rfl
  | cons c r ih =>
    cases hc : isJsWs c with
    | true =>
      have h1 : jsTrim (c :: r ++ w) = jsTrim (r ++ w) := by
        unfold jsTrim jsTrimLeft
        rw [List.cons_append, List.dropWhile_cons_of_pos hc]
      have h2 : jsTrim (c :: r) = jsTrim r := by
        unfold jsTrim jsTrimLeft
        rw [List.dropWhile_cons_of_pos hc]
      rw [h1, h2, ih]
    | false =>
      have h1 : jsTrim (c :: r ++ w) = jsTrimRight (c :: r ++ w) := by
        unfold jsTrim jsTrimLeft
        rw [List.cons_append,
          List.dropWhile_cons_of_neg (by rw [hc]; exact Bool.false_ne_true)]
      have h2 : jsTrim (c :: r) = jsTrimRight (c :: r) := by
        unfold jsTrim jsTrimLeft
        rw [List.dropWhile_cons_of_neg (by rw [hc]; exact Bool.false_ne_true)]
      rw [h1, h2]
      exact jsTrimRight_append_ws (c :: r) w hw

/-- The capture group and the spec-side block interior differ only by
surrounding whitespace, so they trim to the same thing. -/
lemma jsTrim_untilClose_eq_untilFence (l : List Char) :
    jsTrim (untilClose (l.dropWhile isJsWs)) = jsTrim (untilFence l) := by
  have h1 := untilFence_dropWhile l
  have h2 : jsTrim (untilFence l) =
      jsTrim (untilFence (l.dropWhile isJsWs)) := by
    rw [h1]
    exact jsTrim_ws_append _ _ (fun x hx => List.mem_takeWhile_imp hx)
  obtain ⟨w, hw, hws⟩ := untilFence_eq_untilClose_append (l.dropWhile isJsWs)
  rw [h2, hw, jsTrim_append_ws _ _ hws]

/-! ## Supporting lemmas: the whole pattern at one position -/

lemma startsFence_cons_ne {c : Char} (t : List Char) (hc : c ≠ '`') :
    startsFence (c :: t) = false := by
  cases h : startsFence (c :: t) with
  | false => rfl
  | true =>
    exfalso
    have h3 := (startsFence_iff _).1 h
    rw [List.take_succ_cons] at h3
    injection h3 with h1 _
    exact hc h1

lemma hasFence_json (t : List Char) :
    hasFence ('j' :: 's' :: 'o' :: 'n' :: t) = hasFence t := by
  rw [hasFence, startsFence_cons_ne _ (by decide), Bool.false_or]
  rw [hasFence, startsFence_cons_ne _ (by decide), Bool.false_or]
  rw [hasFence, startsFence_cons_ne _ (by decide), Bool.false_or]
  rw [hasFence, startsFence_cons_ne _ (by decide), Bool.false_or]

lemma hasFence_json_drop {r : List Char} (h : startsJson r = true) :
    hasFence r = hasFence (r.drop 4) := by
  conv_lhs => rw [json_decomp h]
  exact hasFence_json (r.drop 4)

lemma matchAt_none_of_not_fence {l : List Char}
    (hsf : startsFence l = false) : matchAt l = none := by
  unfold matchAt
  rw [if_neg (by rw [hsf]; exact Bool.false_ne_true)]

lemma matchAt_eq {l : List Char} (hsf : startsFence l = true) :
    matchAt l =
      if startsJson (l.drop 3) then
        (match matchInner ((l.drop 3).drop 4) with
         | some g => some g
         | none => matchInner (l.drop 3))
      else matchInner (l.drop 3) := by
  unfold matchAt
  rw [if_pos hsf]

/-- `matchAt` in closed form: an opening fence, the tag-resolved body,
success exactly when the body contains a closing fence, and the capture
group trimming to the spec-side interior of the body. -/
lemma matchAt_spec (l : List Char) :
    Option.map jsTrim (matchAt l) =
      if startsFence l then
        (if hasFence (if startsJson (l.drop 3) then (l.drop 3).drop 4
            else l.drop 3) then
          some (jsTrim (untilFence (if startsJson (l.drop 3)
            then (l.drop 3).drop 4 else l.drop 3)))
        else none)
      else none := by
  obtain hsf | hsf := Bool.eq_false_or_eq_true (startsFence l)
  · rw [if_pos hsf, matchAt_eq hsf]
    obtain hj | hj := Bool.eq_false_or_eq_true (startsJson (l.drop 3))
    · rw [if_pos hj, if_pos hj]
      obtain hb | hb := Bool.eq_false_or_eq_true (hasFence ((l.drop 3).drop 4))
      · rw [if_pos hb, matchInner_spec ((l.drop 3).drop 4), if_pos hb]
        simp [jsTrim_untilClose_eq_untilFence]
      · have hb' : ¬ hasFence ((l.drop 3).drop 4) = true := by
          rw [hb]; exact Bool.false_ne_true
        rw [if_neg hb', matchInner_spec ((l.drop 3).drop 4), if_neg hb']
        have hb2 : ¬ hasFence (l.drop 3) = true := by
          rw [hasFence_json_drop hj, hb]; exact Bool.false_ne_true
        rw [matchInner_spec (l.drop 3), if_neg hb2]
        rfl
    · have hj' : ¬ startsJson (l.drop 3) = true := by
        rw [hj]; exact Bool.false_ne_true
      rw [if_neg hj', if_neg hj', matchInner_spec (l.drop 3)]
      obtain hb | hb := Bool.eq_false_or_eq_true (hasFence (l.drop 3))
      · rw [if_pos hb, if_pos hb]
        simp [jsTrim_untilClose_eq_untilFence]
      · have hb' : ¬ hasFence (l.drop 3) = true := by
          rw [hb]; exact Bool.false_ne_true
        rw [if_neg hb', if_neg hb']
        rfl
  · have hsf' : ¬ startsFence l = true := by
      rw [hsf]; exact Bool.false_ne_true
    rw [if_neg hsf', matchAt_none_of_not_fence hsf]
    rfl

/-! ## The extractor agrees with the spec-side first-block description -/

lemma firstBlockInterior_cons_fence {c : Char} {r : List Char}
    (hsf : startsFence (c :: r) = true) :
    firstBlockInterior (c :: r) =
      (match interiorToFence (if startsJson ((c :: r).drop 3)
          then ((c :: r).drop 3).drop 4 else (c :: r).drop 3) with
       | some int => some int
       | none => firstBlockInterior r) := by
  rw [firstBlockInterior, if_pos hsf]

lemma firstBlockInterior_cons_nofence {c : Char} {r : List Char}
    (hsf : startsFence (c :: r) = false) :
    firstBlockInterior (c :: r) = firstBlockInterior r := by
  rw [firstBlockInterior, if_neg (by rw [hsf]; exact Bool.false_ne_true)]

lemma search_eq_block : ∀ l : List Char,
    Option.map jsTrim (regexSearch l) =
      Option.map jsTrim (firstBlockInterior l) := by
  intro l
  induction l with
  | nil => rfl
  | cons c r ih =>
    obtain hsf | hsf := Bool.eq_false_or_eq_true (startsFence (c :: r))
    · have hms := matchAt_spec (c :: r)
      rw [if_pos hsf] at hms
      rw [firstBlockInterior_cons_fence hsf]
      obtain hb | hb := Bool.eq_false_or_eq_true
        (hasFence (if startsJson ((c :: r).drop 3)
          then ((c :: r).drop 3).drop 4 else (c :: r).drop 3))
      · rw [if_pos hb] at hms
        obtain ⟨g, hg, hjg⟩ := Option.map_eq_some'.1 hms
        rw [interiorToFence_spec, if_pos hb]
        rw [regexSearch, hg]
        simp only [Option.map_some']
        rw [hjg]
      · have hb' : ¬ hasFence (if startsJson ((c :: r).drop 3)
            then ((c :: r).drop 3).drop 4 else (c :: r).drop 3) = true := by
          rw [hb]; exact Bool.false_ne_true
        rw [if_neg hb'] at hms
        have hnone := Option.map_eq_none'.1 hms
        rw [interiorToFence_spec, if_neg hb']
        rw [regexSearch, hnone]
        exact ih
    · have hm := matchAt_none_of_not_fence hsf
      rw [firstBlockInterior_cons_nofence hsf, regexSearch, hm]
      exact ih

/-! ## C4: the extractor contract -/

/-- C4: for every response text, `extractJsonFromMarkdown` returns
exactly what the specification's description prescribes — the trimmed
interior of the first fenced code block (triple-backtick delimited,
optionally tagged `json`) when the text contains one, and the trimmed
whole text otherwise (`specExtract` is that description verbatim). -/
theorem extractJson_matches_first_block_spec (text : String) :
    extractJsonFromMarkdown text = specExtract text := by
  have h := search_eq_block text.data
  unfold extractJsonFromMarkdown specExtract
  cases h1 : regexSearch text.data with
  | none =>
    cases h2 : firstBlockInterior text.data with
    | none => rfl
    | some int =>
      rw [h1, h2] at h
      exact absurd h (by simp)
  | some g =>
    cases h2 : firstBlockInterior text.data with
    | none =>
      rw [h1, h2] at h
      exact absurd h (by simp)
    | some int =>
      rw [h1, h2] at h
      simp only [Option.map_some'] at h
      rw [Option.some.injEq] at h
      show String.mk (jsTrim g) = String.mk (jsTrim int)
      rw [h]

/-! ## Supporting lemmas: towards idempotence of the extractor -/

lemma untilClose_prefix : ∀ l : List Char, ∃ t, l = untilClose l ++ t := by
  intro l
  induction l with
  | nil => exact ⟨[], rfl⟩
  | cons c r ih =>
    obtain hc | hc := Bool.eq_false_or_eq_true (closesHere (c :: r))
    · refine ⟨c :: r, ?_⟩
      rw [untilClose, if_pos hc]
      rfl
    · obtain ⟨t, ht⟩ := ih
      refine ⟨t, ?_⟩
      rw [untilClose, if_neg (by rw [hc]; exact Bool.false_ne_true)]
      conv_lhs => rw [ht]
      rfl

lemma startsFence_of_prefix {c : Char} {u r : List Char} (t : List Char)
    (hr : r = u ++ t) (h : startsFence (c :: u) = true) :
    startsFence (c :: r) = true := by
  rw [hr]
  have := startsFence_append t h
  simpa using this

lemma hasFence_untilClose : ∀ l : List Char,
    hasFence (untilClose l) = false := by
  intro l
  induction l with
  | nil => rfl
  | cons c r ih =>
    obtain hc | hc := Bool.eq_false_or_eq_true (closesHere (c :: r))
    · rw [untilClose, if_pos hc]
      rfl
    · rw [untilClose, if_neg (by rw [hc]; exact Bool.false_ne_true)]
      rw [hasFence, ih, Bool.or_false]
      obtain hs | hs := Bool.eq_false_or_eq_true
        (startsFence (c :: untilClose r))
      · exfalso
        obtain ⟨t, ht⟩ := untilClose_prefix r
        have h2 := startsFence_of_prefix t ht hs
        have h3 : closesHere (c :: r) = true := by
          rw [closesHere, h2]
          rfl
        rw [h3] at hc
        exact absurd hc (by decide)
      · exact hs

lemma hasFence_append_left {u : List Char} (w : List Char)
    (h : hasFence u = true) : hasFence (w ++ u) = true := by
  induction w with
  | nil => exact h
  | cons c w' ih =>
    rw [List.cons_append, hasFence, ih, Bool.or_true]

lemma hasFence_append_right {u : List Char} (w : List Char)
    (h : hasFence u = true) : hasFence (u ++ w) = true := by
  induction u with
  | nil => cases h
  | cons c r ih =>
    rw [List.cons_append, hasFence]
    rw [hasFence] at h
    rcases Bool.or_eq_true_iff.1 h with h1 | h2
    · have := startsFence_append w h1
      rw [show (c :: r) ++ w = c :: (r ++ w) from rfl] at this
      rw [this]
      rfl
    · rw [ih h2, Bool.or_true]

lemma jsTrimLeft_suffix (l : List Char) :
    ∃ w, l = w ++ jsTrimLeft l ∧ ∀ x ∈ w, isJsWs x = true := by
  refine ⟨l.takeWhile isJsWs, ?_, fun x hx => List.mem_takeWhile_imp hx⟩
  rw [jsTrimLeft, List.takeWhile_append_dropWhile]

lemma jsTrimRight_prefix (l : List Char) :
    ∃ w, l = jsTrimRight l ++ w ∧ ∀ x ∈ w, isJsWs x = true := by
  refine ⟨(l.reverse.takeWhile isJsWs).reverse, ?_, ?_⟩
  · rw [jsTrimRight, ← List.reverse_append, List.takeWhile_append_dropWhile,
      List.reverse_reverse]
  · intro x hx
    exact List.mem_takeWhile_imp (List.mem_reverse.1 hx)

lemma hasFence_of_hasFence_jsTrim {l : List Char}
    (h : hasFence (jsTrim l) = true) : hasFence l = true := by
  obtain ⟨w1, hw1, _⟩ := jsTrimLeft_suffix l
  obtain ⟨w2, hw2, _⟩ := jsTrimRight_prefix (jsTrimLeft l)
  rw [hw1, hw2]
  exact hasFence_append_left w1 (hasFence_append_right w2 h)

lemma startsFence_of_matchAt {l : List Char} {g : List Char}
    (h : matchAt l = some g) : startsFence l = true := by
  obtain hs | hs := Bool.eq_false_or_eq_true (startsFence l)
  · exact hs
  · rw [matchAt_none_of_not_fence hs] at h
    cases h

lemma hasFence_of_search : ∀ {l : List Char} {g : List Char},
    regexSearch l = some g → hasFence l = true := by
  intro l
  induction l with
  | nil => intro g h; cases h
  | cons c r ih =>
    intro g h
    rw [regexSearch] at h
    cases hm : matchAt (c :: r) with
    | some g' =>
      rw [hasFence, startsFence_of_matchAt hm]
      rfl
    | none =>
      rw [hm] at h
      rw [hasFence, ih h, Bool.or_true]

lemma search_none_of_no_fence {l : List Char} (h : hasFence l = false) :
    regexSearch l = none := by
  cases hs : regexSearch l with
  | none => rfl
  | some g =>
    rw [hasFence_of_search hs] at h
    exact absurd h (by decide)

lemma matchInner_untilClose {l : List Char} {g : List Char}
    (h : matchInner l = some g) : ∃ l', g = untilClose l' := by
  rw [matchInner_spec] at h
  obtain hb | hb := Bool.eq_false_or_eq_true (hasFence l)
  · rw [if_pos hb] at h
    exact ⟨l.dropWhile isJsWs, (Option.some.injEq _ _ ▸ h).symm⟩
  · rw [if_neg (by rw [hb]; exact Bool.false_ne_true)] at h
    cases h

lemma matchAt_untilClose {l : List Char} {g : List Char}
    (h : matchAt l = some g) : ∃ l', g = untilClose l' := by
  have hs := startsFence_of_matchAt h
  rw [matchAt_eq hs] at h
  obtain hj | hj := Bool.eq_false_or_eq_true (startsJson (l.drop 3))
  · rw [if_pos hj] at h
    cases hm : matchInner ((l.drop 3).drop 4) with
    | some g' =>
      rw [hm] at h
      rw [show some g' = some g from h] at hm
      exact matchInner_untilClose hm
    | none =>
      rw [hm] at h
      exact matchInner_untilClose h
  · rw [if_neg (by rw [hj]; exact Bool.false_ne_true)] at h
    exact matchInner_untilClose h

lemma search_untilClose : ∀ {l : List Char} {g : List Char},
    regexSearch l = some g → ∃ l', g = untilClose l' := by
  intro l
  induction l with
  | nil => intro g h; cases h
  | cons c r ih =>
    intro g h
    rw [regexSearch] at h
    cases hm : matchAt (c :: r) with
    | some g' =>
      rw [hm] at h
      rw [show some g' = some g from h] at hm
      exact matchAt_untilClose hm
    | none =>
      rw [hm] at h
      exact ih h

/-! ## Supporting lemmas: trim idempotence -/

lemma dropWhile_eq_self_of_prefix {x u w : List Char}
    (hx : x.dropWhile isJsWs = x) (hu : x = u ++ w) :
    u.dropWhile isJsWs = u := by
  cases u with
  | nil => rfl
  | cons c t =>
    have hc : isJsWs c = false := by
      obtain h1 | h1 := Bool.eq_false_or_eq_true (isJsWs c)
      · exfalso
        rw [hu, List.cons_append, List.dropWhile_cons_of_pos h1] at hx
        have hlen := congrArg List.length hx
        have hle := ((t ++ w).dropWhile_suffix isJsWs).length_le
        rw [hlen] at hle
        simp at hle
      · exact h1
    rw [List.dropWhile_cons_of_neg (by rw [hc]; exact Bool.false_ne_true)]

lemma jsTrimRight_idem (l : List Char) :
    jsTrimRight (jsTrimRight l) = jsTrimRight l := by
  calc jsTrimRight (jsTrimRight l)
      = ((l.reverse.dropWhile isJsWs).dropWhile isJsWs).reverse := by
        rw [jsTrimRight, jsTrimRight, List.reverse_reverse]
    _ = (l.reverse.dropWhile isJsWs).reverse := by
        rw [List.dropWhile_idempotent]
    _ = jsTrimRight l := rfl

lemma jsTrim_idem (l : List Char) : jsTrim (jsTrim l) = jsTrim l := by
  unfold jsTrim
  have hx : (jsTrimLeft l).dropWhile isJsWs = jsTrimLeft l := by
    rw [jsTrimLeft, List.dropWhile_idempotent]
  obtain ⟨w, hw, _⟩ := jsTrimRight_prefix (jsTrimLeft l)
  have h1 : jsTrimLeft (jsTrimRight (jsTrimLeft l)) =
      jsTrimRight (jsTrimLeft l) :=
    dropWhile_eq_self_of_prefix hx hw
  rw [h1, jsTrimRight_idem]

/-! ## Supporting lemmas: a match survives surrounding text -/

lemma matchAt_isSome (l : List Char) :
    (matchAt l).isSome =
      (startsFence l &&
        hasFence (if startsJson (l.drop 3) then (l.drop 3).drop 4
          else l.drop 3)) := by
  have h := congrArg Option.isSome (matchAt_spec l)
  rw [Option.isSome_map'] at h
  rw [h]
  obtain hsf | hsf := Bool.eq_false_or_eq_true (startsFence l)
  · rw [if_pos hsf, hsf, Bool.true_and]
    obtain hb | hb := Bool.eq_false_or_eq_true
      (hasFence (if startsJson (l.drop 3) then (l.drop 3).drop 4
        else l.drop 3))
    · rw [if_pos hb, hb]; rfl
    · rw [if_neg (by rw [hb]; exact Bool.false_ne_true), hb]; rfl
  · rw [if_neg (by rw [hsf]; exact Bool.false_ne_true), hsf, Bool.false_and]
    rfl

lemma hasFence_length {u : List Char} (h : hasFence u = true) :
    3 ≤ u.length := by
  induction u with
  | nil => cases h
  | cons c r ih =>
    rw [hasFence] at h
    rcases Bool.or_eq_true_iff.1 h with h1 | h2
    · exact length_ge_of_startsFence h1
    · have := ih h2
      simp only [List.length_cons]
      omega

lemma startsFence_of_hasFence_short {u : List Char} (h : hasFence u = true)
    (hlen : u.length ≤ 3) : startsFence u = true := by
  induction u with
  | nil => cases h
  | cons c r ih =>
    rw [hasFence] at h
    rcases Bool.or_eq_true_iff.1 h with h1 | h2
    · exact h1
    · exfalso
      have h3 := hasFence_length h2
      simp only [List.length_cons] at hlen
      omega

lemma matchAt_append {l : List Char} (post : List Char)
    (h : (matchAt l).isSome = true) :
    (matchAt (l ++ post)).isSome = true := by
  rw [matchAt_isSome] at h ⊢
  obtain ⟨hsf, hb⟩ := Bool.and_eq_true_iff.1 h
  rw [startsFence_append post hsf, Bool.true_and]
  have hlen3 := length_ge_of_startsFence hsf
  rw [drop_three_append post hlen3]
  obtain hj | hj := Bool.eq_false_or_eq_true (startsJson (l.drop 3))
  · rw [if_pos hj] at hb
    rw [if_pos (startsJson_append post hj),
      drop_four_append post (length_ge_of_startsJson hj)]
    exact hasFence_append_right post hb
  · rw [if_neg (by rw [hj]; exact Bool.false_ne_true)] at hb
    obtain hj2 | hj2 := Bool.eq_false_or_eq_true
      (startsJson (l.drop 3 ++ post))
    · exfalso
      have hrlen : (l.drop 3).length < 4 := by
        rcases Nat.lt_or_ge (l.drop 3).length 4 with h4 | h4
        · exact h4
        · exfalso
          have heq : (l.drop 3 ++ post).take 4 = (l.drop 3).take 4 := by
            rw [List.take_append_eq_append_take]
            have h0 : 4 - (l.drop 3).length = 0 := by omega
            rw [h0, List.take_zero, List.append_nil]
          rw [startsJson_iff, heq, ← startsJson_iff] at hj2
          rw [hj2] at hj
          exact absurd hj (by decide)
      have hsr : startsFence (l.drop 3) = true :=
        startsFence_of_hasFence_short hb (by omega)
      have hfd := fence_decomp hsr
      have hdrop : (l.drop 3).drop 3 = [] :=
        List.drop_of_length_le (by omega)
      rw [hdrop] at hfd
      rw [hfd] at hj2
      rw [startsJson_iff] at hj2
      rw [show ((['`', '`', '`'] : List Char) ++ post) =
        '`' :: '`' :: '`' :: post from rfl] at hj2
      simp [List.take_succ_cons] at hj2
    · rw [if_neg (by rw [hj2]; exact Bool.false_ne_true)]
      exact hasFence_append_right post hb

lemma search_isSome_append_right {x : List Char} (post : List Char)
    (h : (regexSearch x).isSome = true) :
    (regexSearch (x ++ post)).isSome = true := by
  induction x with
  | nil => cases h
  | cons c r ih =>
    rw [regexSearch] at h
    rw [show (c :: r) ++ post = c :: (r ++ post) from rfl, regexSearch]
    cases hm : matchAt (c :: r) with
    | some g =>
      have hms : (matchAt ((c :: r) ++ post)).isSome = true :=
        matchAt_append post (by rw [hm]; rfl)
      rw [show (c :: r) ++ post = c :: (r ++ post) from rfl] at hms
      cases hm2 : matchAt (c :: (r ++ post)) with
      | some g2 => rfl
      | none => rw [hm2] at hms; cases hms
    | none =>
      rw [hm] at h
      have := ih h
      cases hm2 : matchAt (c :: (r ++ post)) with
      | some g2 => rfl
      | none => exact this

lemma search_isSome_append_left {x : List Char} (pre : List Char)
    (h : (regexSearch x).isSome = true) :
    (regexSearch (pre ++ x)).isSome = true := by
  induction pre with
  | nil => exact h
  | cons c w ih =>
    rw [List.cons_append, regexSearch]
    cases hm : matchAt (c :: (w ++ x)) with
    | some g => rfl
    | none => exact ih

/-! ## C10: idempotence of the extractor -/

/-- C10: `extractJsonFromMarkdown` is idempotent: applying it to its own
output returns that output unchanged.  When the input has a fenced block
the extracted group lies strictly before the closing fence, so it can
contain no complete fence pair and the second pass merely re-trims an
already-trimmed string; when the input has no match, trimming cannot
create one. -/
theorem extractJson_idempotent (t : String) :
    extractJsonFromMarkdown (extractJsonFromMarkdown t) =
      extractJsonFromMarkdown t := by
  cases h : regexSearch t.data with
  | some g =>
    have hext : extractJsonFromMarkdown t = String.mk (jsTrim g) := by
      unfold extractJsonFromMarkdown
      rw [h]
    obtain ⟨l', hl'⟩ := search_untilClose h
    have hnf : hasFence g = false := by
      rw [hl']
      exact hasFence_untilClose l'
    have hnf2 : hasFence (jsTrim g) = false := by
      obtain h1 | h1 := Bool.eq_false_or_eq_true (hasFence (jsTrim g))
      · rw [hasFence_of_hasFence_jsTrim h1] at hnf
        exact absurd hnf (by decide)
      · exact h1
    rw [hext]
    unfold extractJsonFromMarkdown
    rw [show (String.mk (jsTrim g)).data = jsTrim g from rfl,
      search_none_of_no_fence hnf2]
    show String.mk (jsTrim (jsTrim g)) = String.mk (jsTrim g)
    rw [jsTrim_idem]
  | none =>
    have hext : extractJsonFromMarkdown t = String.mk (jsTrim t.data) := by
      unfold extractJsonFromMarkdown
      rw [h]
    have hsn : regexSearch (jsTrim t.data) = none := by
      cases hs : regexSearch (jsTrim t.data) with
      | none => rfl
      | some g =>
        exfalso
        obtain ⟨w1, hw1, _⟩ := jsTrimLeft_suffix t.data
        obtain ⟨w2, hw2, _⟩ := jsTrimRight_prefix (jsTrimLeft t.data)
        have hsome : (regexSearch (jsTrim t.data)).isSome = true := by
          rw [hs]
          rfl
        have h2 := search_isSome_append_right w2 hsome
        rw [show jsTrim t.data ++ w2 = jsTrimRight (jsTrimLeft t.data) ++ w2
          from rfl, ← hw2] at h2
        have h3 := search_isSome_append_left w1 h2
        rw [← hw1] at h3
        rw [h] at h3
        cases h3
    rw [hext]
    unfold extractJsonFromMarkdown
    rw [show (String.mk (jsTrim t.data)).data = jsTrim t.data from rfl, hsn]
    show String.mk (jsTrim (jsTrim t.data)) = String.mk (jsTrim t.data)
    rw [jsTrim_idem]

end MkxAI
